import Mathlib

/-!
Verification of the core subsystems of the Automation_AI_Agent repository:
the Schema Validator (`server/utils/excelValidator.js`), the Identifier
Normalizer (`server/utils/normalizer.js`), the Scenario Grouping Parser
(`server/utils/excelParser.js`) and the Code Conformance Post-Processor
(the post-processing section of `server/code-generator.js`).

JavaScript strings are modelled as Lean `String` values and string
operations (`trim`, `includes`, `split`, `replace`, the regular
expressions used by the post-processor) are implemented faithfully over
the character list of the string.  JS truthiness of a string is the test
`s ≠ ""`.
-/

/-! ## JavaScript string primitives -/

/-- The characters recognised by the JS `\s` class (ASCII part), also used
by `String.prototype.trim`. -/
def jsIsSpace (c : Char) : Bool :=
  c = ' ' || c = '\t' || c = '\n' || c = '\r' || c = '\x0b' || c = '\x0c'

/-- JS `String.prototype.trim` on a character list. -/
def jsTrimL (cs : List Char) : List Char :=
  ((cs.dropWhile jsIsSpace).reverse.dropWhile jsIsSpace).reverse

/-- JS `String.prototype.trim`. -/
def jsTrim (s : String) : String := String.mk (jsTrimL s.data)

/-- JS `String.prototype.toLowerCase` (ASCII). -/
def jsToLower (s : String) : String := String.mk (s.data.map Char.toLower)

/-- JS `String.prototype.toUpperCase` (ASCII). -/
def jsToUpper (s : String) : String := String.mk (s.data.map Char.toUpper)

/-- ASCII letter or digit, the class `[a-zA-Z0-9]`. -/
def jsIsAlnum (c : Char) : Bool :=
  ('a' ≤ c && c ≤ 'z') || ('A' ≤ c && c ≤ 'Z') || ('0' ≤ c && c ≤ '9')

/-- The class `[a-z0-9]`. -/
def jsIsLowerAlnum (c : Char) : Bool :=
  ('a' ≤ c && c ≤ 'z') || ('0' ≤ c && c ≤ '9')

/-- `needle` is a prefix of `hay` (both as character lists). -/
def strLeads : List Char → List Char → Bool
  | [], _ => true
  | _ :: _, [] => false
  | a :: as, b :: bs => a = b && strLeads as bs

/-- First index at which `needle` occurs in `hay`, if any. -/
def strFindL (needle : List Char) : List Char → Option Nat
  | [] => if strLeads needle [] then some 0 else none
  | c :: cs =>
    if strLeads needle (c :: cs) then some 0
    else (strFindL needle cs).map (· + 1)

/-- JS `String.prototype.includes`. -/
def jsIncludes (hay needle : String) : Bool := (strFindL needle.data hay.data).isSome

/-- JS `String.prototype.replace` with a plain-string pattern: replaces only
the first occurrence; if the pattern is absent the string is unchanged. -/
def replFirstL (needle repl : List Char) : List Char → List Char
  | [] => if strLeads needle [] then repl else []
  | c :: cs =>
    if strLeads needle (c :: cs) then repl ++ (c :: cs).drop needle.length
    else c :: replFirstL needle repl cs

/-- JS `String.prototype.replace` with a plain-string pattern. -/
def replaceFirst (hay needle repl : String) : String :=
  String.mk (replFirstL needle.data repl.data hay.data)

/-- JS `String.prototype.split` with a single-character separator, on
character lists.  `split` of the empty string yields `[""]`. -/
def splitChL (sep : Char) : List Char → List (List Char)
  | [] => [[]]
  | c :: cs =>
    if c = sep then [] :: splitChL sep cs
    else
      match splitChL sep cs with
      | [] => [[c]]
      | h :: t => (c :: h) :: t

/-- JS `String.prototype.split` with a single-character separator. -/
def jsSplit (sep : Char) (s : String) : List String :=
  (splitChL sep s.data).map String.mk

/-- JS `Array.prototype.join('\n')`. -/
def joinNl : List String → String
  | [] => ""
  | [x] => x
  | x :: xs => x ++ "\n" ++ joinNl xs

/-- `hay` starts with `pre` (JS `startsWith`). -/
def strStarts (hay pre : String) : Bool := strLeads pre.data hay.data

/-- `hay` ends with `suf` (JS anchored `$` regex test). -/
def strEnds (hay suf : String) : Bool := strLeads suf.data.reverse hay.data.reverse

/-- Remove a trailing `suf` from `hay` when present (a JS
`replace(/suf$/, '')`). -/
def stripEnd (hay suf : String) : String :=
  if strEnds hay suf then String.mk (hay.data.take (hay.data.length - suf.data.length))
  else hay

/-- JS `a || b` on strings: `b` when `a` is empty (falsy), else `a`. -/
def jsOr (a b : String) : String := if a = "" then b else a

/-! ## Identifier Normalizer (`server/utils/normalizer.js`) -/

/-- Capitalise the first character of a word, JS
`word.charAt(0).toUpperCase() + word.slice(1)`. -/
def capitalizeL : List Char → List Char
  | [] => []
  | c :: cs => c.toUpper :: cs

/-- `toPascalCase` from `server/utils/normalizer.js`: strip characters
outside `[a-zA-Z0-9 ]`, split on spaces, drop empty tokens, capitalise
each token, concatenate. -/
def toPascalCase (s : String) : String :=
  String.mk
    (((splitChL ' ' (s.data.filter (fun c => jsIsAlnum c || c = ' '))).filter
      (fun w => ¬ w.isEmpty)).map capitalizeL).flatten

/-- `toCamelCase` from `server/utils/normalizer.js`: `toPascalCase` with the
first character lowercased. -/
def toCamelCase (s : String) : String :=
  match (toPascalCase s).data with
  | [] => ""
  | c :: cs => String.mk (c.toLower :: cs)

/-- The stop-word set of `toShortFeatureName` in `server/utils/normalizer.js`. -/
def commonWordsServer : List String :=
  ["a", "an", "the", "of", "in", "on", "at", "for", "with", "and", "or", "but", "is", "are",
   "was", "were", "be", "been", "being", "have", "has", "had", "do", "does", "did", "not",
   "no", "this", "that", "these", "those", "from", "to", "by", "as", "it", "its", "from",
   "into", "through", "during", "before", "after", "above", "below", "to", "from", "up",
   "down", "out", "in", "off", "on", "over", "under", "again", "further", "then", "once",
   "here", "there", "when", "where", "why", "how", "all", "any", "both", "each", "few",
   "more", "most", "other", "some", "such", "no", "nor", "only", "own", "same", "so",
   "than", "too", "very", "s", "t", "can", "will", "just", "don", "should", "now",
   "verify", "check", "ensure", "manage", "test", "scenario", "flow", "functionality",
   "page", "module", "system"]

/-- The word list computed by `toShortFeatureName`: lowercase, strip
characters outside `[a-z0-9\s]`, split on single spaces, keep words longer
than 2 characters that are not stop words. -/
def shortNameWords (stop : List String) (scenarioTitle : String) : List String :=
  (((splitChL ' ' ((jsToLower scenarioTitle).data.filter
      (fun c => jsIsLowerAlnum c || jsIsSpace c))).map String.mk).filter
    (fun w => w.data.length > 2 && ¬ stop.contains w))

/-- The accumulation loop of `toShortFeatureName`: append Pascal-cased words
while the running length stays under 25; on overflow, truncate the first
word to 25 characters when nothing was accumulated yet, then stop. -/
def buildShortName : List String → String → String
  | [], acc => acc
  | w :: ws, acc =>
    let p := toPascalCase w
    if acc.data.length + p.data.length < 25 then buildShortName ws (acc ++ p)
    else if acc = "" then String.mk (w.data.take 25)
    else acc

/-- `toShortFeatureName` from `server/utils/normalizer.js`. -/
def toShortFeatureName (scenarioTitle : String) : String :=
  let words := shortNameWords commonWordsServer scenarioTitle
  if words.isEmpty then
    jsOr (toCamelCase (String.mk (scenarioTitle.data.take (min scenarioTitle.data.length 15))))
      "genericFeature"
  else
    let shortName := buildShortName words ""
    jsOr (toCamelCase shortName) (jsOr (toCamelCase (words.headD "")) "genericFeature")

/-- The stop-word set of the client copy of `toShortFeatureName`
(`client/utils.js`). -/
def commonWordsClient : List String :=
  ["a", "an", "the", "of", "in", "on", "at", "for", "and", "or", "but", "is", "are", "was",
   "were", "be", "been", "being", "have", "has", "had", "do", "does", "did", "not", "no",
   "this", "that", "these", "those", "from", "to", "by", "as", "it", "its", "from", "into",
   "through", "during", "before", "after", "above", "below", "up", "down", "out", "in",
   "off", "on", "over", "under", "again", "further", "then", "once", "here", "there",
   "when", "where", "why", "how", "all", "any", "both", "each", "few", "more", "most",
   "other", "some", "such", "no", "nor", "only", "own", "same", "so", "than", "too",
   "very", "s", "t", "can", "will", "just", "don", "should", "now", "verify", "check",
   "ensure", "manage", "test", "scenario", "flow", "functionality", "page", "module",
   "system", "with"]

/-- `toCamelCase` from `client/utils.js`: strip specials, split on spaces,
lowercase the first word's initial, capitalise the others, concatenate. -/
def toCamelCaseClient (s : String) : String :=
  let ws := (splitChL ' ' (s.data.filter (fun c => jsIsAlnum c || c = ' '))).filter
    (fun w => ¬ w.isEmpty)
  match ws with
  | [] => ""
  | w :: rest =>
    String.mk ((match w with
      | [] => []
      | c :: cs => c.toLower :: cs) ++ (rest.map capitalizeL).flatten)

/-- The accumulation loop of the client `toShortFeatureName` (identical
shape, inline capitalisation). -/
def buildShortNameClient : List String → String → String
  | [], acc => acc
  | w :: ws, acc =>
    let p := String.mk (capitalizeL w.data)
    if acc.data.length + p.data.length < 25 then buildShortNameClient ws (acc ++ p)
    else if acc = "" then String.mk (w.data.take 25)
    else acc

/-- `toShortFeatureName` from `client/utils.js`. -/
def toShortFeatureNameClient (scenarioTitle : String) : String :=
  let words := shortNameWords commonWordsClient scenarioTitle
  if words.isEmpty then
    jsOr (toCamelCaseClient (String.mk (scenarioTitle.data.take (min scenarioTitle.data.length 15))))
      "genericFeature"
  else
    let shortName := buildShortNameClient words ""
    jsOr (toCamelCaseClient shortName) (jsOr (toCamelCaseClient (words.headD "")) "genericFeature")

/-! Basic facts about the `a || b || 'genericFeature'` fallback chain. -/

theorem jsOr_ne_empty (a b : String) (hb : b ≠ "") : jsOr a b ≠ "" := by
  unfold jsOr
  by_cases h : a = "" <;> simp [h, hb]

/-- C10: for every input string, `toShortFeatureName` returns a non-empty
string: every fallback chain ends in the non-empty literal
`"genericFeature"`, so a group key derived from any scenario title is never
empty and the skip-on-empty-short-name branch can never fire on the short
name's account.  The same holds for the client copy. -/
theorem c10_short_feature_name_nonempty :
    ∀ s : String, toShortFeatureName s ≠ "" ∧ toShortFeatureNameClient s ≠ "" := by
  intro s
  constructor
  · unfold toShortFeatureName
    by_cases h : (shortNameWords commonWordsServer s).isEmpty
    · simpa [h] using jsOr_ne_empty _ "genericFeature" (by decide)
    · simpa [h] using
        jsOr_ne_empty _ _ (jsOr_ne_empty _ "genericFeature" (by decide))
  · unfold toShortFeatureNameClient
    by_cases h : (shortNameWords commonWordsClient s).isEmpty
    · simpa [h] using jsOr_ne_empty _ "genericFeature" (by decide)
    · simpa [h] using
        jsOr_ne_empty _ _ (jsOr_ne_empty _ "genericFeature" (by decide))

/-! ## Data model (spec section 3, as produced by `server/utils/excelParser.js`) -/

/-- The fields of an NLP `analysis` object inspected by the post-processor
(`action`, `validationType`, `expectedValue`, `target`, `url`).  A missing
or empty field is modelled as `""`, matching JS falsiness of `undefined`
and `''` in every branch condition of the source. -/
structure NlpAnalysis where
  action : String
  validationType : String
  expectedValue : String
  target : String
  url : String
deriving DecidableEq

/-- A test case as built by `parseExcelToJSON` (`server/utils/excelParser.js`),
with the optional enrichment `nlpAnalysis.expectedResult.analysis` chain
modelled as `nlpExpectedAnalysis` (`none` when any link of the chain is
missing). -/
structure TestCase where
  id : String
  title : String
  description : String
  steps : List String
  data : String
  expected : String
  priority : String
  nlpExpectedAnalysis : Option NlpAnalysis := none
deriving DecidableEq

/-- A scenario group as built by `parseExcelToJSON`: the Map values
`{ page, scenario, shortFeatureName, tests }`, in insertion order. -/
structure ScenarioGroup where
  page : String
  scenario : String
  shortFeatureName : String
  tests : List TestCase
deriving DecidableEq

/-! ## Schema Validator (`server/utils/excelValidator.js`) -/

/-- The fatal error classes of `validateExcelSchema` (each a thrown
`Error` in the source). -/
inductive SchemaError where
  | missingColumn (name : String)
  | invalidPriority (excelRowNumber : Nat) (value : String)
  | noValidScenario
deriving DecidableEq

deriving instance DecidableEq for Except

/-- `MANDATORY_HEADERS` from `server/utils/excelValidator.js` — six names;
`Test Case ID` is not among them. -/
def mandatoryHeaders : List String :=
  ["Test Scenario", "Test Case Description", "Detail Steps", "Test Data",
   "Expected Result", "Testcase Priority"]

/-- The first mandatory header absent from the trimmed header row, if any —
the first name on which the `for...of` loop of `validateExcelSchema`
throws. -/
def missingMandatory (trimmedHeaders : List String) : Option String :=
  mandatoryHeaders.find? (fun m => ¬ trimmedHeaders.contains m)

/-- Read `row[idx]` where `idx` is the result of a header `indexOf`/`findIndex`;
an out-of-range or absent index yields `''` (JS `undefined` fails the
`typeof === 'string'` guards and the `|| ''` defaults in the source). -/
def cellAt (row : List String) (idx : Option Nat) : String :=
  match idx with
  | some i => row.getD i ""
  | none => ""

/-- The per-row scan of `validateExcelSchema`: carries
`hasAtLeastOneValidScenario` and `lastValidScenarioTitle`, throws on an
invalid non-empty `Testcase Priority` naming the 1-based Excel row number,
and returns the final `hasAtLeastOneValidScenario` flag.  (The source's
row-level `console.warn` diagnostics are logs and are not modelled.) -/
def validateRowsAux (tsIdx tpIdx : Option Nat) :
    List (List String) → Nat → Bool → Option String → Except SchemaError Bool
  | [], _, hasValid, _ => .ok hasValid
  | row :: rest, rowNum, hasValid, lastValid =>
    let scenarioTitle := jsTrim (cellAt row tsIdx)
    let currentScenarioTitle :=
      if scenarioTitle ≠ "" then scenarioTitle
      else match lastValid with
        | some t => t
        | none => ""
    let lastValid' := if scenarioTitle ≠ "" then some scenarioTitle else lastValid
    let hasValid' := hasValid || currentScenarioTitle ≠ ""
    let testcasePriority := jsToUpper (jsTrim (cellAt row tpIdx))
    if testcasePriority ≠ "" ∧ ¬ ["P1", "P2", "P3"].contains testcasePriority then
      .error (.invalidPriority rowNum testcasePriority)
    else
      validateRowsAux tsIdx tpIdx rest (rowNum + 1) hasValid' lastValid'

/-- `validateExcelSchema` from `server/utils/excelValidator.js`: first the
mandatory-header check (throwing on the first missing name, before any row
is scanned), then the per-row scan, then the no-valid-scenario check. -/
def validateExcelSchema (headers : List String) (dataRows : List (List String)) :
    Except SchemaError Bool :=
  let trimmedHeaders := headers.map jsTrim
  match missingMandatory trimmedHeaders with
  | some m => .error (.missingColumn m)
  | none =>
    let tsIdx := trimmedHeaders.findIdx? (· == "Test Scenario")
    let tpIdx := trimmedHeaders.findIdx? (· == "Testcase Priority")
    match validateRowsAux tsIdx tpIdx dataRows 2 false none with
    | .error e => .error e
    | .ok hasValid =>
      if ¬ hasValid ∧ dataRows.length > 0 then .error .noValidScenario
      else .ok true

/-! ## Scenario Grouping Parser (`server/utils/excelParser.js`) -/

/-- Look a cell up through the trimmed header row, as the source's
`rowObject[header]` construction does (`String(cell).trim()`, `''` for a
missing cell or column). -/
def rowCell (trimmedHeaders : List String) (row : List String) (name : String) : String :=
  match trimmedHeaders.findIdx? (· == name) with
  | some i => jsTrim (row.getD i "")
  | none => ""

/-- The tests of the group keyed by a short feature name (empty when no
such group exists). -/
def groupTests (gs : List ScenarioGroup) (sfn : String) : List TestCase :=
  ((gs.find? (fun g => g.shortFeatureName == sfn)).map (fun g => g.tests)).getD []

/-- Append a test to the group keyed `sfn` (the `groupedMap.get(...).tests.push`
of the source; insertion order of groups is preserved). -/
def appendTest (gs : List ScenarioGroup) (sfn : String) (tc : TestCase) :
    List ScenarioGroup :=
  gs.map (fun g => if g.shortFeatureName == sfn then { g with tests := g.tests ++ [tc] } else g)

/-- The mutable state of the grouping loop: the ordered groups and
`lastValidScenarioTitle`. -/
structure ParseState where
  groups : List ScenarioGroup
  lastValid : Option String
deriving DecidableEq

/-- Build the `TestCase` pushed for a row resolved to `title`, where `n` is
the 1-based position within the group so far (`tests.length + 1` after the
group is ensured). -/
def rowTestCase (trimmedHeaders : List String) (row : List String) (title : String)
    (n : Nat) : TestCase :=
  { id := rowCell trimmedHeaders row "Test Case ID"
    title := jsOr (rowCell trimmedHeaders row "Test Case Description")
      ("Test for " ++ title ++ " - Case " ++ toString n)
    description := rowCell trimmedHeaders row "Test Case Description"
    steps := ((jsSplit '\n' (rowCell trimmedHeaders row "Detail Steps")).map jsTrim).filter
      (fun s => s ≠ "")
    data := rowCell trimmedHeaders row "Test Data"
    expected := rowCell trimmedHeaders row "Expected Result"
    priority :=
      if rowCell trimmedHeaders row "Testcase Priority" ≠ "" then
        jsToUpper (rowCell trimmedHeaders row "Testcase Priority")
      else ""
    nlpExpectedAnalysis := none }

/-- The body of the grouping loop after the scenario title has been
resolved: re-checks the title for emptiness, skips the row when
`toCamelCase` of the title is empty, otherwise ensures the group exists
and appends the row's `TestCase`.  (Skips are `console` diagnostics in the
source, never exceptions.) -/
def processResolved (trimmedHeaders : List String) (st : ParseState) (title : String)
    (row : List String) : ParseState :=
  if title = "" then st
  else
    let pageCamel := toCamelCase title
    let sfn := toShortFeatureName title
    if pageCamel = "" then st
    else
      let groups1 :=
        if st.groups.any (fun g => g.shortFeatureName == sfn) then st.groups
        else st.groups ++ [⟨pageCamel, title, sfn, []⟩]
      let n := (groupTests groups1 sfn).length + 1
      { st with groups := appendTest groups1 sfn (rowTestCase trimmedHeaders row title n) }

/-- One iteration of the grouping loop of `parseExcelToJSON`: the
carry-forward rule on the `Test Scenario` cell.  A non-empty trimmed cell
sets `lastValidScenarioTitle` (before any later skip); an empty cell uses
the carried title when one exists and otherwise drops the row with a
warning. -/
def processRow (trimmedHeaders : List String) (tsIdx : Option Nat) (st : ParseState)
    (row : List String) : ParseState :=
  let trimmedCell := jsTrim (cellAt row tsIdx)
  if trimmedCell ≠ "" then
    processResolved trimmedHeaders { st with lastValid := some trimmedCell } trimmedCell row
  else
    match st.lastValid with
    | some t => processResolved trimmedHeaders st t row
    | none => st

/-- The grouping loop of `parseExcelToJSON` over all data rows. -/
def parseDataRows (headers : List String) (dataRows : List (List String)) :
    List ScenarioGroup :=
  let trimmedHeaders := headers.map jsTrim
  let tsIdx := trimmedHeaders.findIdx? (· == "Test Scenario")
  (dataRows.foldl (processRow trimmedHeaders tsIdx) ⟨[], none⟩).groups

/-- `parseExcelToJSON` after the sheet has been read: schema validation
runs to completion first and aborts with a `SchemaError` before any
grouping happens; only then are rows grouped. -/
def parseExcelToJSON (headers : List String) (dataRows : List (List String)) :
    Except SchemaError (List ScenarioGroup) :=
  match validateExcelSchema headers dataRows with
  | .error e => .error e
  | .ok _ => .ok (parseDataRows headers dataRows)

/-! ## Claims C1 and C9 -/

theorem validateExcelSchema_missing (headers : List String) (dataRows : List (List String))
    (m0 : String) (hfind : missingMandatory (headers.map jsTrim) = some m0) :
    validateExcelSchema headers dataRows = .error (.missingColumn m0) := by
  simp only [validateExcelSchema]
  rw [hfind]

/-- C1 counterexample: the header row holding exactly the six names of
`MANDATORY_HEADERS` — hence missing `Test Case ID` — passes schema
validation (`.ok true`) and reaches grouping, so validation does not fail
fatally whenever `Test Case ID` is absent from the trimmed header row. -/
theorem c1_counterexample :
    (["Test Scenario", "Test Case Description", "Detail Steps", "Test Data",
      "Expected Result", "Testcase Priority"].contains "Test Case ID") = false ∧
    validateExcelSchema
      ["Test Scenario", "Test Case Description", "Detail Steps", "Test Data",
       "Expected Result", "Testcase Priority"] [] = .ok true ∧
    parseExcelToJSON
      ["Test Scenario", "Test Case Description", "Detail Steps", "Test Data",
       "Expected Result", "Testcase Priority"] [] = .ok [] := by
  refine ⟨by decide, by decide, by decide⟩

/-- C1 (amended): schema validation fails fatally — a `SchemaError` of the
missing-column kind, returned before any grouping — whenever any of the
six mandatory column names `Test Scenario`, `Test Case Description`,
`Detail Steps`, `Test Data`, `Expected Result`, `Testcase Priority` is
absent from the trimmed header row, for every header row (hence for all
permutations); `Test Case ID` is not among the mandatory columns. -/
theorem c1_missing_mandatory_column_fatal (headers : List String)
    (dataRows : List (List String))
    (h : ∃ m ∈ mandatoryHeaders, ¬ (headers.map jsTrim).contains m) :
    ∃ m ∈ mandatoryHeaders,
      validateExcelSchema headers dataRows = .error (.missingColumn m) ∧
      parseExcelToJSON headers dataRows = .error (.missingColumn m) := by
  have hsome : (missingMandatory (headers.map jsTrim)).isSome := by
    unfold missingMandatory
    rw [List.find?_isSome]
    obtain ⟨m, hm, hnc⟩ := h
    exact ⟨m, hm, by simpa using hnc⟩
  obtain ⟨m0, hfind⟩ := Option.isSome_iff_exists.mp hsome
  have hmem : m0 ∈ mandatoryHeaders := by
    have := List.mem_of_find?_eq_some (p := fun m => ¬ (headers.map jsTrim).contains m)
      (by simpa [missingMandatory] using hfind)
    exact this
  have hval := validateExcelSchema_missing headers dataRows m0 hfind
  refine ⟨m0, hmem, hval, ?_⟩
  simp only [parseExcelToJSON]
  rw [hval]

/-- Witness for C1: a concrete header row missing `Test Scenario` is
rejected with a missing-column `SchemaError`. -/
theorem c1_missing_mandatory_column_fatal_witness :
    ∃ m ∈ mandatoryHeaders,
      validateExcelSchema ["Test Case ID", "Detail Steps"] [] = .error (.missingColumn m) ∧
      parseExcelToJSON ["Test Case ID", "Detail Steps"] [] = .error (.missingColumn m) :=
  c1_missing_mandatory_column_fatal ["Test Case ID", "Detail Steps"] []
    ⟨"Test Scenario", by decide, by decide⟩

/-! Supporting lemmas for the grouping loop. -/

theorem groupTests_appendTest_of_mem (gs : List ScenarioGroup) (sfn : String)
    (tc : TestCase) (h : gs.any (fun g => g.shortFeatureName == sfn) = true) :
    groupTests (appendTest gs sfn tc) sfn = groupTests gs sfn ++ [tc] := by
  induction gs with
  | nil => simp at h
  | cons g gs ih =>
    by_cases hg : (g.shortFeatureName == sfn) = true
    · have heq : g.shortFeatureName = sfn := by simpa using hg
      subst heq
      simp [appendTest, groupTests, List.find?]
    · have hne : ¬ (g.shortFeatureName = sfn) := by simpa using hg
      have h' : gs.any (fun g => g.shortFeatureName == sfn) = true := by
        simpa [List.any_cons, hne] using h
      have hres := ih h'
      have e1 : appendTest (g :: gs) sfn tc = g :: appendTest gs sfn tc := by
        simp [appendTest, hne]
      have hbe : (g.shortFeatureName == sfn) = false := by
        simpa using hne
      have e2 : groupTests (g :: appendTest gs sfn tc) sfn
          = groupTests (appendTest gs sfn tc) sfn := by
        simp [groupTests, List.find?, hbe]
      have e3 : groupTests (g :: gs) sfn = groupTests gs sfn := by
        simp [groupTests, List.find?, hbe]
      rw [e1, e2, e3, hres]

theorem groupTests_of_not_mem (gs : List ScenarioGroup) (sfn : String)
    (h : gs.any (fun g => g.shortFeatureName == sfn) = false) :
    groupTests gs sfn = [] := by
  have hfind : gs.find? (fun g => g.shortFeatureName == sfn) = none := by
    rw [List.find?_eq_none]
    intro x hx
    have := List.any_eq_false.mp h x hx
    simpa using this
  simp [groupTests, hfind]

theorem processResolved_spec (TH : List String) (st : ParseState) (t : String)
    (row : List String) :
    (processResolved TH st t row).lastValid = st.lastValid ∧
    ((t = "" ∨ toCamelCase t = "") → processResolved TH st t row = st) ∧
    (t ≠ "" → toCamelCase t ≠ "" →
      groupTests (processResolved TH st t row).groups (toShortFeatureName t) =
        groupTests st.groups (toShortFeatureName t) ++
          [rowTestCase TH row t ((groupTests st.groups (toShortFeatureName t)).length + 1)]) := by
  by_cases ht : t = ""
  · exact ⟨by simp [processResolved, ht], fun _ => by simp [processResolved, ht],
      fun h => absurd ht h⟩
  · by_cases hc : toCamelCase t = ""
    · refine ⟨by simp [processResolved, ht, hc], fun _ => by simp [processResolved, ht, hc], ?_⟩
      intro _ h; exact absurd hc h
    · by_cases hmem : st.groups.any (fun g => g.shortFeatureName == toShortFeatureName t) = true
      · refine ⟨by simp [processResolved, ht, hc, hmem], ?_, ?_⟩
        · rintro (h | h)
          · exact absurd h ht
          · exact absurd h hc
        · intro _ _
          simp only [processResolved, if_neg ht, if_neg hc, hmem, if_true]
          exact groupTests_appendTest_of_mem st.groups (toShortFeatureName t) _ hmem
      · have hmem' : st.groups.any (fun g => g.shortFeatureName == toShortFeatureName t) = false := by
          simpa using hmem
        have hempty := groupTests_of_not_mem st.groups (toShortFeatureName t) hmem'
        have hmem2 :
            (st.groups ++ [(⟨toCamelCase t, t, toShortFeatureName t, []⟩ : ScenarioGroup)]).any
              (fun g => g.shortFeatureName == toShortFeatureName t) = true := by
          simp
        have hnewTests :
            groupTests
              (st.groups ++ [(⟨toCamelCase t, t, toShortFeatureName t, []⟩ : ScenarioGroup)])
              (toShortFeatureName t) = [] := by
          have hfind : st.groups.find? (fun g => g.shortFeatureName == toShortFeatureName t) = none := by
            rw [List.find?_eq_none]
            intro x hx
            have := List.any_eq_false.mp hmem' x hx
            simpa using this
          simp [groupTests, List.find?_append, hfind, List.find?]
        refine ⟨by simp [processResolved, ht, hc, hmem'], ?_, ?_⟩
        · rintro (h | h)
          · exact absurd h ht
          · exact absurd h hc
        · intro _ _
          simp only [processResolved, if_neg ht, if_neg hc, hmem', Bool.false_eq_true, if_false]
          rw [groupTests_appendTest_of_mem _ _ _ hmem2, hnewTests, hempty]

/-- C9 counterexample: a data row whose `Test Scenario` cell is the
non-empty string `"!!!"` is not grouped under it — the parser drops the
row because `toCamelCase "!!!"` is empty — so a row with a non-empty
scenario cell does not always set up and join a group. -/
theorem c9_counterexample :
    jsTrim "!!!" ≠ "" ∧
    toCamelCase "!!!" = "" ∧
    parseDataRows
      ["Test Scenario", "Test Case ID", "Test Case Description", "Detail Steps",
       "Test Data", "Expected Result", "Testcase Priority"]
      [["!!!", "TC1", "desc", "step", "d", "e", ""]] = [] := by
  refine ⟨by decide, by decide, by decide⟩

/-- C9 (amended): one step of the grouping loop obeys the carry-forward
rule — a non-empty trimmed scenario cell sets the carried title, an empty
cell leaves it unchanged, an empty cell with no carried title leaves the
whole state unchanged (the row is dropped with a warning, never aborting);
and whenever a title is resolved (from the cell or by carry-forward), the
row's `TestCase` is appended to the group keyed by the title's short
feature name — provided `toCamelCase` of the title is non-empty, the row
being dropped with a warning otherwise. -/
theorem c9_carry_forward (TH : List String) (tsIdx : Option Nat) (st : ParseState)
    (row : List String) :
    (jsTrim (cellAt row tsIdx) ≠ "" →
      (processRow TH tsIdx st row).lastValid = some (jsTrim (cellAt row tsIdx))) ∧
    (jsTrim (cellAt row tsIdx) = "" →
      (processRow TH tsIdx st row).lastValid = st.lastValid) ∧
    (jsTrim (cellAt row tsIdx) = "" → st.lastValid = none →
      processRow TH tsIdx st row = st) ∧
    (∀ t, (if jsTrim (cellAt row tsIdx) ≠ "" then some (jsTrim (cellAt row tsIdx))
           else st.lastValid) = some t →
      (toCamelCase t ≠ "" →
        groupTests (processRow TH tsIdx st row).groups (toShortFeatureName t) =
          groupTests st.groups (toShortFeatureName t) ++
            [rowTestCase TH row t
              ((groupTests st.groups (toShortFeatureName t)).length + 1)]) ∧
      (toCamelCase t = "" →
        (processRow TH tsIdx st row).groups = st.groups)) := by
  by_cases hc : jsTrim (cellAt row tsIdx) = ""
  · -- empty scenario cell: carry-forward or drop
    cases hlv : st.lastValid with
    | none =>
      refine ⟨fun h => absurd hc h, ?_, fun _ _ => by simp [processRow, hc, hlv], ?_⟩
      · intro _
        simp [processRow, hc, hlv]
      · intro t hsome
        rw [if_neg (by simpa using hc)] at hsome
        exact absurd hsome (by simp)
    | some t0 =>
      have hrw : processRow TH tsIdx st row = processResolved TH st t0 row := by
        simp [processRow, hc, hlv]
      obtain ⟨hl, hskip, happend⟩ := processResolved_spec TH st t0 row
      refine ⟨fun h => absurd hc h, ?_, ?_, ?_⟩
      · intro _
        rw [hrw, hl]
        exact hlv
      · intro _ habs
        exact absurd habs (by simp)
      · intro t hsome
        rw [if_neg (by simpa using hc)] at hsome
        have ht0 : t0 = t := by simpa using hsome
        rw [← ht0]
        constructor
        · intro hcc
          by_cases ht : t0 = ""
          · exfalso
            apply hcc
            rw [ht]
            decide
          · rw [hrw]
            exact happend ht hcc
        · intro hcc
          rw [hrw, hskip (Or.inr hcc)]
  · -- non-empty scenario cell: sets the carried title and groups under it
    have hrw : processRow TH tsIdx st row =
        processResolved TH { st with lastValid := some (jsTrim (cellAt row tsIdx)) }
          (jsTrim (cellAt row tsIdx)) row := by
      simp [processRow, hc]
    obtain ⟨hl, hskip, happend⟩ :=
      processResolved_spec TH { st with lastValid := some (jsTrim (cellAt row tsIdx)) }
        (jsTrim (cellAt row tsIdx)) row
    refine ⟨?_, fun h => absurd h hc, fun h => absurd h hc, ?_⟩
    · intro _
      rw [hrw, hl]
    · intro t hsome
      rw [if_pos hc] at hsome
      have ht : jsTrim (cellAt row tsIdx) = t := by simpa using hsome
      rw [← ht]
      constructor
      · intro hcc
        rw [hrw]
        simpa using happend hc hcc
      · intro hcc
        rw [hrw, hskip (Or.inr hcc)]

/-- Witness for C9: a blank-scenario row following carried title `"Login"`
keeps the carried title and appends its test case to the `"Login"` group. -/
theorem c9_carry_forward_witness :
    (processRow ["Test Scenario"] (some 0) ⟨[], some "Login"⟩ [""]).lastValid = some "Login" ∧
    groupTests (processRow ["Test Scenario"] (some 0) ⟨[], some "Login"⟩ [""]).groups
      (toShortFeatureName "Login") = [rowTestCase ["Test Scenario"] [""] "Login" 1] := by
  have h := c9_carry_forward ["Test Scenario"] (some 0) ⟨[], some "Login"⟩ [""]
  refine ⟨h.2.1 (by decide), ?_⟩
  have h4 := (h.2.2.2 "Login" (by decide)).1 (by decide)
  simpa using h4

/-! ## Code Conformance Post-Processor (`server/code-generator.js`, the
post-processing of `aiGeneratedStructure`)

The line-oriented regular expressions of the source are implemented as
explicit matchers over character lists with JS semantics: leftmost match,
lazy `(.*?)` captures (shortest prefix whose continuation matches), greedy
`\s*`/`\s+` (always followed by a literal here, so greediness is
deterministic). -/

/-- The apostrophe character `'` (code 39). -/
def quoteCh : Char := Char.ofNat 39

/-- The double-quote character (code 34). -/
def dquoteCh : Char := Char.ofNat 34

/-- The backtick character (code 96). -/
def btickCh : Char := Char.ofNat 96

/-- The opening curly brace (code 123). -/
def openBr : Char := Char.ofNat 123

/-- The closing curly brace (code 125). -/
def closeBr : Char := Char.ofNat 125

/-- The regex class `['"`]`. -/
def isQuoteCh (c : Char) : Bool := c = quoteCh || c = dquoteCh || c = btickCh

/-- Consume a literal character sequence. -/
def dropLit : List Char → List Char → Option (List Char)
  | [], cs => some cs
  | _ :: _, [] => none
  | p :: ps, c :: cs => if c = p then dropLit ps cs else none

/-- Consume a literal string. -/
def dropLitS (pat : String) (cs : List Char) : Option (List Char) := dropLit pat.data cs

/-- Consume `\s*` (greedy). -/
def wsStar (cs : List Char) : List Char := cs.dropWhile jsIsSpace

/-- Consume `\s+`. -/
def wsPlus : List Char → Option (List Char)
  | [] => none
  | c :: cs => if jsIsSpace c then some (wsStar cs) else none

/-- Consume one expected character. -/
def expectCh (ch : Char) : List Char → Option (List Char)
  | [] => none
  | c :: cs => if c = ch then some cs else none

/-- The tail `\s*,\s*?\(\s*?\)\s*?=>\s*?\{` of the describe regex
`/(test\.describe\()(['"`])(.*?)\2(\s*,\s*?\(\s*?\)\s*?=>\s*?\{)/`. -/
def descTailOk (cs : List Char) : Bool :=
  (do
    let cs ← expectCh ',' (wsStar cs)
    let cs ← expectCh '(' (wsStar cs)
    let cs ← expectCh ')' (wsStar cs)
    let cs ← dropLitS "=>" (wsStar cs)
    let _ ← expectCh openBr (wsStar cs)
    pure ()).isSome

/-- The lazy capture `(.*?)` of the describe regex: the shortest prefix
followed by the back-referenced closing quote `q` and a matching tail. -/
def descCapture (q : Char) : List Char → Option (List Char)
  | [] => none
  | c :: cs =>
    if c = q && descTailOk cs then some []
    else (descCapture q cs).map (c :: ·)

/-- Try the describe regex anchored at the current position. -/
def matchDescribeAt (cs : List Char) : Option String :=
  match dropLitS "test.describe(" cs with
  | some (q :: cs2) => if isQuoteCh q then (descCapture q cs2).map String.mk else none
  | _ => none

/-- Leftmost-match scan of a position-anchored matcher. -/
def scanStr (f : List Char → Option String) : List Char → Option String
  | [] => f []
  | c :: cs =>
    match f (c :: cs) with
    | some r => some r
    | none => scanStr f cs

/-- The captured title of
`line.match(/(test\.describe\()(['"`])(.*?)\2(\s*,\s*?\(\s*?\)\s*?=>\s*?\{)/)`,
the group `describeMatch[3]`. -/
def findDescribeTitle (line : String) : Option String := scanStr matchDescribeAt line.data

/-- The tail `\s*\)\s*=>\s*\{` after the lazy inner `.*?}` of the test
regex. -/
def testAfterBraceOk (cs : List Char) : Bool :=
  (do
    let cs ← expectCh ')' (wsStar cs)
    let cs ← dropLitS "=>" (wsStar cs)
    let _ ← expectCh openBr (wsStar cs)
    pure ()).isSome

/-- The lazy `.*?\}` scan inside the test regex: some position holds `}`
followed by a matching tail. -/
def testInnerOk : List Char → Bool
  | [] => false
  | c :: cs => (c = closeBr && testAfterBraceOk cs) || testInnerOk cs

/-- The tail `\s*,\s*async\s*\(\s*\{.*?\}\s*\)\s*=>\s*\{` of the test regex
`/(test\(['"`])(.*?)(['"`]\s*,\s*async\s*\(\s*{.*?}\s*\)\s*=>\s*\{)/`. -/
def testTailOk (cs : List Char) : Bool :=
  match (do
    let cs ← expectCh ',' (wsStar cs)
    let cs ← dropLitS "async" (wsStar cs)
    let cs ← expectCh '(' (wsStar cs)
    let cs ← expectCh openBr (wsStar cs)
    pure cs) with
  | some cs => testInnerOk cs
  | none => false

/-- The lazy capture `(.*?)` of the test regex: the shortest prefix followed
by any quote character (group 3 has no back-reference) and a matching
tail. -/
def testCapture : List Char → Option (List Char)
  | [] => none
  | c :: cs =>
    if isQuoteCh c && testTailOk cs then some []
    else (testCapture cs).map (c :: ·)

/-- Try the test regex anchored at the current position. -/
def matchTestAt (cs : List Char) : Option String :=
  match dropLitS "test(" cs with
  | some (q :: cs2) => if isQuoteCh q then (testCapture cs2).map String.mk else none
  | _ => none

/-- The captured title of
`line.match(/(test\(['"`])(.*?)(['"`]\s*,\s*async\s*\(\s*{.*?}\s*\)\s*=>\s*\{)/)`,
the group `testMatch[2]`. -/
def findTestTitle (line : String) : Option String := scanStr matchTestAt line.data

/-- Existence scan of a position-anchored boolean matcher. -/
def scanBool (f : List Char → Bool) : List Char → Bool
  | [] => f []
  | c :: cs => f (c :: cs) || scanBool f cs

/-- One position of the existing-assertion pattern
`/(?:expect\(|page\.waitForURL\(|await\s+(?:page|browser)\.(?:toBe|toHave|isVisible|title)\()/`. -/
def assertLikeAt (cs : List Char) : Bool :=
  (dropLitS "expect(" cs).isSome ||
  (dropLitS "page.waitForURL(" cs).isSome ||
  (do
    let cs ← dropLitS "await" cs
    let cs ← wsPlus cs
    let cs ← (match dropLitS "page." cs with
      | some r => some r
      | none => dropLitS "browser." cs)
    let cs ← (match dropLitS "toBe" cs with
      | some r => some r
      | none => match dropLitS "toHave" cs with
        | some r => some r
        | none => match dropLitS "isVisible" cs with
          | some r => some r
          | none => dropLitS "title" cs)
    let _ ← expectCh '(' cs
    pure ()).isSome

/-- `hasExistingAssertion`: the pattern above tested against the joined
lookahead window. -/
def assertLikeTest (s : String) : Bool := scanBool assertLikeAt s.data

/-! ### The URL regex
`/(https?:\/\/(?:www\.)?[a-zA-Z0-9.-]+\.[a-zA-Z]{2,6}(?::\d+)?(?:\/[^\s,"']*)?)/`
with JS backtracking semantics (greedy host run backtracks to leave a dot
and a 2-6 letter TLD; the optional `www.`, port and path groups are
greedy). -/

/-- The class `[a-zA-Z0-9.-]`. -/
def hostCh (c : Char) : Bool := jsIsAlnum c || c = '.' || c = '-'

/-- The class `[a-zA-Z]`. -/
def alphaCh (c : Char) : Bool := ('a' ≤ c && c ≤ 'z') || ('A' ≤ c && c ≤ 'Z')

/-- The class `\d`. -/
def digitCh (c : Char) : Bool := '0' ≤ c && c ≤ '9'

/-- The class `[^\s,"']`. -/
def pathCh (c : Char) : Bool :=
  ¬ jsIsSpace c && c ≠ ',' && c ≠ dquoteCh && c ≠ quoteCh

/-- Backtracking split of the host run: the largest index `a ≥ 1` inside the
maximal `[a-zA-Z0-9.-]` run `R` such that `R` has a `.` at `a` followed by
at least two letters (the greedy `+` giving back characters until
`\.[a-zA-Z]{2,6}` can match). -/
def hostSplitDesc (cs R : List Char) : Nat → Option Nat
  | 0 => none
  | a + 1 =>
    if a + 1 < R.length && R.getD (a + 1) '*' = '.' &&
        2 ≤ ((cs.drop (a + 2)).takeWhile alphaCh).length then
      some (a + 1)
    else hostSplitDesc cs R a

/-- Length consumed by `[a-zA-Z0-9.-]+\.[a-zA-Z]{2,6}(?::\d+)?(?:\/[^\s,"']*)?`
from the current position, if it matches. -/
def urlHostMatch (cs : List Char) : Option Nat :=
  let R := cs.takeWhile hostCh
  match hostSplitDesc cs R (R.length - 1) with
  | none => none
  | some v =>
    let tldLen := min ((cs.drop (v + 1)).takeWhile alphaCh).length 6
    let afterTld := v + 1 + tldLen
    let portLen :=
      match cs.drop afterTld with
      | c :: rest =>
        if c = ':' && (match rest with | d :: _ => digitCh d | [] => false) then
          1 + (rest.takeWhile digitCh).length
        else 0
      | [] => 0
    let afterPort := afterTld + portLen
    let pathLen :=
      match cs.drop afterPort with
      | c :: rest => if c = '/' then 1 + (rest.takeWhile pathCh).length else 0
      | [] => 0
    some (afterPort + pathLen)

/-- Try the URL regex anchored at the current position; returns the whole
match (`urlMatch[0]`). -/
def matchUrlAt (cs : List Char) : Option String :=
  match dropLitS "http" cs with
  | none => none
  | some cs1 =>
    let schemeLen : Option Nat :=
      match dropLitS "s://" cs1 with
      | some _ => some 8
      | none =>
        match dropLitS "://" cs1 with
        | some _ => some 7
        | none => none
    match schemeLen with
    | none => none
    | some n0 =>
      let rest := cs.drop n0
      let withWww : Option Nat :=
        match dropLitS "www." rest with
        | some rest2 => (urlHostMatch rest2).map (fun n => n0 + 4 + n)
        | none => none
      match withWww with
      | some n => some (String.mk (cs.take n))
      | none => (urlHostMatch rest).map (fun n => String.mk (cs.take (n0 + n)))

/-- `lowerExpected.match(urlRegex)`, leftmost match. -/
def extractUrl (s : String) : Option String :=
  scanStr (fun cs => matchUrlAt cs) s.data

/-! ### Title correction and assertion synthesis -/

/-- The `switch (currentTestCase.priority)` tag table (default: no tags). -/
def priorityTags (p : String) : String :=
  if p = "P1" then "@smoke @reg "
  else if p = "P2" then "@sanity @reg "
  else if p = "P3" then "@reg "
  else ""

/-- `exactTestTitle`: the test case's `title`, prefixed with the priority
tags when `priority` is truthy (non-empty). -/
def exactTestTitleOf (tc : TestCase) : String :=
  if tc.priority ≠ "" then priorityTags tc.priority ++ tc.title else tc.title

/-- The banned placeholder substrings checked on the generated title. -/
def bannedGeneratedTitle (generated : String) : Bool :=
  jsIncludes generated "Test for" || jsIncludes generated "Case" ||
  jsIncludes generated "Funcitonality" || jsIncludes generated "Scenario"

/-- The replacement condition on a captured test title:
`generatedTitle.trim() !== exactTestTitle.trim()` or a banned placeholder
substring occurs in the captured title. -/
def shouldReplaceTitle (generated exact : String) : Bool :=
  ¬ (jsTrim generated == jsTrim exact) || bannedGeneratedTitle generated

/-- Declaration-level title correction: when a line matches the describe
regex and the captured title differs (trimmed) from the exact scenario
title, replace the first occurrence of the captured title in the line. -/
def describeFix (g : ScenarioGroup) (line : String) : String :=
  match findDescribeTitle line with
  | some t => if jsTrim t ≠ jsTrim g.scenario then replaceFirst line t g.scenario else line
  | none => line

/-- The NLP-driven assertion inference over
`nlpAnalysis.expectedResult.analysis` (branches (a)-(d) of the source,
falling back to the verbatim comment).  In branch (d) the source template
escapes the interpolations, so the emitted text contains the literal
placeholder names. -/
def nlpAssertion (a : NlpAnalysis) (expectedResult : String) : String :=
  if a.action = "navigate" ∧ a.url ≠ "" then
    "await page.waitForURL('" ++ a.url ++ "'); // NLP-inferred: Page URL verification"
  else if a.action = "verify" ∧ a.validationType = "text" ∧ a.expectedValue ≠ "" then
    "// Assertion: Verify text content '" ++ a.expectedValue ++
      "'\n        // You may need to refine the locator based on context.\n        await expect(page.locator('text=" ++
      a.expectedValue ++ "')).toContainText('" ++ a.expectedValue ++ "');"
  else if a.action = "verify" ∧ a.validationType = "visibility" ∧ a.target ≠ "" then
    "// Assertion: Verify element visibility for '" ++ a.target ++
      "'\n        // You may need to refine the locator based on context.\n        await expect(page.locator('text=" ++
      a.target ++ "')).toBeVisible();"
  else if a.action = "verify" ∧ a.target ≠ "" ∧ a.expectedValue ≠ "" then
    "// Assertion: Verify $\x7bnlpAnalysis.target\x7d is $\x7bnlpAnalysis.expectedValue\x7d. Please add specific assertion."
  else
    "// Verify: " ++ expectedResult

/-- The keyword-based assertion inference used when no NLP analysis is
attached: scan the lowercased expected text for `url` (then extract a URL
— yielding the empty string, hence no injection, when the URL regex finds
nothing), `visible`/`displayed`, `text`/`message`/`value`, and otherwise
fall back to a verbatim comment. -/
def keywordAssertion (expectedResult : String) : String :=
  let lowerExpected := jsToLower expectedResult
  if jsIncludes lowerExpected "url" then
    match extractUrl lowerExpected with
    | some u => "await page.waitForURL('" ++ u ++ "'); // Keyword inferred: URL verification"
    | none => ""
  else if jsIncludes lowerExpected "visible" || jsIncludes lowerExpected "displayed" then
    "// Verify element is visible: " ++ expectedResult
  else if jsIncludes lowerExpected "text" || jsIncludes lowerExpected "message" ||
      jsIncludes lowerExpected "value" then
    "// Verify text content: " ++ expectedResult
  else
    "// Verify: " ++ expectedResult

/-- The full assertion synthesis for a test case (run only when no
existing assertion was found in the lookahead window). -/
def inferAssertion (tc : TestCase) : String :=
  match tc.nlpExpectedAnalysis with
  | some a => nlpAssertion a tc.expected
  | none => keywordAssertion tc.expected

/-! ### Injection point -/

/-- One line of the brace scan: `if (line.includes('{')) braceCount++;
if (line.includes('}')) braceCount--;` — at most one increment and one
decrement per line, regardless of the number of brace occurrences. -/
def braceStep (d : Int) (line : String) : Int :=
  let d1 := if line.data.contains openBr then d + 1 else d
  if line.data.contains closeBr then d1 - 1 else d1

/-- The scan of the `while` loop: the offset of the first line at which the
running count reaches 0, starting from depth `d`. -/
def findCloseAux (d : Int) : List String → Option Nat
  | [] => none
  | l :: ls =>
    let d2 := braceStep d l
    if d2 = 0 then some 0 else (findCloseAux d2 ls).map (· + 1)

/-- The absolute index (in the working array) of the line on which the
brace scan seeded at 1 on the case-declaration line `i` reaches depth 0:
`j - 1` at the end of the source's `while` loop. -/
def locateClose (lines : List String) (i : Nat) : Option Nat :=
  (findCloseAux 1 (lines.drop (i + 1))).map (fun o => i + 1 + o)

/-- `lines.splice(idx, 0, newLine)`: insert immediately before index `idx`. -/
def spliceAt (lines : List String) (idx : Nat) (newLine : String) : List String :=
  lines.take idx ++ [newLine] ++ lines.drop idx

/-- The effect of one injection attempt on the working `lines` array
(source lines 412-432): locate the closing line, splice the indented
assertion immediately before it, or leave the array unchanged (with a
warning) when the depth never reaches 0.  The boolean records
`foundClosingBrace`. -/
def injectAssertion (lines : List String) (i : Nat) (code : String) :
    List String × Bool :=
  match locateClose lines i with
  | some c => (spliceAt lines c ("      " ++ code), true)
  | none => (lines, false)

/-! ### The per-file loop

The source iterates an index `i` over the working array `lines`, pushing
each processed `line` onto `newLines`; after a successful splice at index
`j - 1` it sets `i = j - 1`, so the `i++` of the `for` loop resumes at the
old closing line and the lines strictly between the case declaration and
the located closing line — together with the spliced assertion itself —
are never pushed onto `newLines`.  Because every computation of an
iteration (the lookahead window `lines.slice(i + 1, i + 10)`, the brace
scan from `i + 1`, the resumption index) depends only on the suffix of the
working array from `i` on, the loop is modelled structurally on that
suffix: the resumption at the old closing line is `rest.drop o` where `o`
is the scan offset, and the spliced element — which sits strictly behind
the resumption point and is never visited again — does not appear.  The
fuel argument starts at the length of the suffix, which the invariant
`suffix.length ≤ fuel` keeps sufficient (each step consumes at least one
line of the suffix), so the zero-fuel case is only reached on the empty
suffix. -/

/-- The post-processing loop over a test file's lines for its resolved
scenario group (source lines 316-440), modelled on the remaining suffix;
`k` is `testCaseCounter`. -/
def postLoopF (g : ScenarioGroup) : Nat → List String → Nat → List String
  | 0, _, _ => []
  | _ + 1, [], _ => []
  | fuel + 1, line :: rest, k =>
    let line1 := describeFix g line
    match findTestTitle line1 with
    | some gt =>
      if h : k < g.tests.length then
        let tc := g.tests[k]
        let exact := exactTestTitleOf tc
        let line2 := if shouldReplaceTitle gt exact then replaceFirst line1 gt exact else line1
        if tc.expected ≠ "" ∧ jsTrim tc.expected ≠ "" then
          if assertLikeTest (joinNl (rest.take 9)) then
            line2 :: postLoopF g fuel rest (k + 1)
          else if inferAssertion tc ≠ "" then
            match findCloseAux 1 rest with
            | some o => line2 :: postLoopF g fuel (rest.drop o) (k + 1)
            | none => line2 :: postLoopF g fuel rest (k + 1)
          else line2 :: postLoopF g fuel rest (k + 1)
        else line2 :: postLoopF g fuel rest (k + 1)
      else line1 :: postLoopF g fuel rest k
    | none => line1 :: postLoopF g fuel rest k

/-- The per-file loop applied to a whole file with its resolved group. -/
def processTestLines (g : ScenarioGroup) (lines : List String) : List String :=
  postLoopF g lines.length lines 0

/-! ### Import shim, group resolution, whole-file processing -/

/-- Try the import-shim regex
`/import\s+\{\s*test\s*\}\s+from\s+['"]\.\.\/testFixtures\/baseFixture\.js['"];?/`
anchored at the current position; returns the remainder after the matched
span (consuming an optional trailing `;`). -/
def importShimAt (cs : List Char) : Option (List Char) := do
  let cs ← dropLitS "import" cs
  let cs ← wsPlus cs
  let cs ← expectCh openBr cs
  let cs ← dropLitS "test" (wsStar cs)
  let cs ← expectCh closeBr (wsStar cs)
  let cs ← wsPlus cs
  let cs ← dropLitS "from" cs
  let cs ← wsPlus cs
  let cs ← (match expectCh quoteCh cs with
    | some r => some r
    | none => expectCh dquoteCh cs)
  let cs ← dropLitS "../testFixtures/baseFixture.js" cs
  let cs ← (match expectCh quoteCh cs with
    | some r => some r
    | none => expectCh dquoteCh cs)
  pure (match cs with
    | c :: rest => if c = ';' then rest else c :: rest
    | [] => [])

/-- The default-import line substituted for the matched span. -/
def newImportLine : String := "import test from '../testFixtures/baseFixture.js';"

/-- Leftmost replacement of the import-shim match. -/
def fixImportL : List Char → Option (List Char)
  | [] => none
  | c :: cs =>
    match importShimAt (c :: cs) with
    | some rest => some (newImportLine.data ++ rest)
    | none => (fixImportL cs).map (c :: ·)

/-- The `lines[0]` import correction: when the first line matches the
shim regex, replace the matched span with the default import. -/
def fixImportLine (l0 : String) : String :=
  match fixImportL l0.data with
  | some r => String.mk r
  | none => l0

/-- `filePath.split('/').pop()`. -/
def lastComponent (path : String) : String := (jsSplit '/' path).getLastD ""

/-- The successive anchored suffix strips
`.replace(/\.spec\.js$/, '').replace(/\.test\.js$/, '').replace(/\.cy\.js$/, '')`. -/
def stripSpecSuffixes (name : String) : String :=
  stripEnd (stripEnd (stripEnd name ".spec.js") ".test.js") ".cy.js"

/-- The file filter of the post-processing loop:
`filePath.startsWith('tests/') && (endsWith('.spec.js') || endsWith('.test.js') || endsWith('.cy.js'))`. -/
def isTestSpecPath (p : String) : Bool :=
  strStarts p "tests/" && (strEnds p ".spec.js" || strEnds p ".test.js" || strEnds p ".cy.js")

/-- Post-processing of one test spec file: split into lines, fix the
first line's import, resolve the owning scenario group by the file's
base name, run the per-file loop when a group is found (otherwise leave
the lines untouched apart from the import fix, with a warning), and join
back. -/
def processSpecContent (groups : List ScenarioGroup) (path content : String) : String :=
  let lines := jsSplit '\n' content
  let lines := match lines with
    | [] => []
    | l0 :: rest => fixImportLine l0 :: rest
  let base := stripSpecSuffixes (lastComponent path)
  match groups.find? (fun g => g.shortFeatureName == base) with
  | some g => joinNl (processTestLines g lines)
  | none => joinNl lines

/-! ### Fixture regeneration and the whole post-processor -/

/-- The designated fixture path. -/
def fixturePath : String := "testFixtures/baseFixture.js"

/-- One page-object import line of the regenerated fixture. -/
def fixtureImportLine (name : String) : String :=
  "import \x7b " ++ name ++ "Page \x7d from '../pages/" ++ name ++ "Page.js';"

/-- One fixture factory entry of the regenerated fixture. -/
def fixtureDefLine (name : String) : String :=
  "    " ++ toCamelCase name ++ "Page: async (\x7b page \x7d, use) => \x7b await use(new " ++
    name ++ "Page(page)); \x7d,"

/-- The deterministic fixture construction (source lines 452-477): the
base import, one import line and one factory entry per page-object name,
and the minimal `extend(\x7b\x7d)` fixture when the name list is empty. -/
def buildFixture (pageObjectNames : List String) : String :=
  if pageObjectNames.length > 0 then
    let importStatements := joinNl (pageObjectNames.map fixtureImportLine)
    let fixtureDefinitions := joinNl (pageObjectNames.map fixtureDefLine)
    let c1 := "import \x7b test as baseTest \x7d from '@playwright/test';\n"
    let c2 := if importStatements.data.length > 0 then c1 ++ importStatements ++ "\n" else c1
    let c3 := c2 ++ "\nconst test = baseTest.extend(\x7b\n"
    let c4 := if fixtureDefinitions.data.length > 0 then c3 ++ fixtureDefinitions ++ "\n" else c3
    c4 ++ "\x7d);\n\nexport default test;\n"
  else
    "import \x7b test as baseTest \x7d from '@playwright/test';\n\nconst test = baseTest.extend(\x7b\x7d);\n\nexport default test;\n"

/-- First-key lookup in a path-to-content mapping (JS object access). -/
def lookupVal : List (String × String) → String → Option String
  | [], _ => none
  | kv :: t, k => if kv.1 == k then some kv.2 else lookupVal t k

/-- In-place value update at a key (JS property assignment; keys are
unique in a JS object). -/
def setVal (fs : List (String × String)) (k v : String) : List (String × String) :=
  fs.map (fun kv => if kv.1 == k then (kv.1, v) else kv)

/-- The fixture block: `if (aiGeneratedStructure["testFixtures/baseFixture.js"])`
— a JS truthiness test, so the entry must be present *and* non-empty —
then the value is unconditionally replaced by the deterministic
construction. -/
def fixtureStep (names : List String) (fs : List (String × String)) :
    List (String × String) :=
  match lookupVal fs fixturePath with
  | some v => if v ≠ "" then setVal fs fixturePath (buildFixture names) else fs
  | none => fs

/-- The whole Code Conformance Post-Processor on a GeneratedFileSet: the
per-file pass over every `tests/*` spec file, then the fixture block. -/
def postProcess (groups : List ScenarioGroup) (names : List String)
    (fs : List (String × String)) : List (String × String) :=
  fixtureStep names
    (fs.map (fun kv => if isTestSpecPath kv.1 then (kv.1, processSpecContent groups kv.1 kv.2) else kv))


/-! ## Claim C3: the injection point -/

/-- The running depth after processing the line at offset `n` (0-based)
starting from depth `d`: the fold of `braceStep` over the first `n + 1`
lines. -/
def depthFrom (d : Int) (ls : List String) (n : Nat) : Int :=
  (ls.take (n + 1)).foldl braceStep d

theorem depthFrom_cons_zero (d : Int) (l : String) (ls : List String) :
    depthFrom d (l :: ls) 0 = braceStep d l := by
  simp [depthFrom]

theorem depthFrom_cons_succ (d : Int) (l : String) (ls : List String) (n : Nat) :
    depthFrom d (l :: ls) (n + 1) = depthFrom (braceStep d l) ls n := by
  simp [depthFrom, List.take_succ_cons]

theorem findCloseAux_cons (d : Int) (l : String) (ls : List String) :
    findCloseAux d (l :: ls) =
      if braceStep d l = 0 then some 0
      else (findCloseAux (braceStep d l) ls).map (· + 1) := rfl

theorem findCloseAux_eq_some_iff (ls : List String) (d : Int) (n : Nat) :
    findCloseAux d ls = some n ↔
      (n < ls.length ∧ depthFrom d ls n = 0 ∧ ∀ m, m < n → depthFrom d ls m ≠ 0) := by
  induction ls generalizing d n with
  | nil => simp [findCloseAux]
  | cons l ls ih =>
    by_cases hd : braceStep d l = 0
    · rw [findCloseAux_cons, if_pos hd]
      cases n with
      | zero => simp [hd, depthFrom_cons_zero]
      | succ n =>
        constructor
        · intro h
          simp at h
        · rintro ⟨-, -, hall⟩
          exact absurd hd (by simpa [depthFrom_cons_zero] using hall 0 (Nat.succ_pos n))
    · rw [findCloseAux_cons, if_neg hd]
      cases n with
      | zero =>
        constructor
        · intro h
          rw [Option.map_eq_some'] at h
          obtain ⟨n', -, hEq⟩ := h
          omega
        · rintro ⟨-, h0, -⟩
          rw [depthFrom_cons_zero] at h0
          exact absurd h0 hd
      | succ n =>
        have hstep := ih (braceStep d l) n
        constructor
        · intro h
          rw [Option.map_eq_some'] at h
          obtain ⟨n', hn', hEq⟩ := h
          have hn : n' = n := by omega
          subst hn
          obtain ⟨h1, h2, h3⟩ := hstep.mp hn'
          refine ⟨by simpa using Nat.succ_lt_succ h1, by rwa [depthFrom_cons_succ], ?_⟩
          intro m hm
          cases m with
          | zero => simpa [depthFrom_cons_zero] using hd
          | succ m =>
            rw [depthFrom_cons_succ]
            exact h3 m (by omega)
        · rintro ⟨h1, h2, h3⟩
          have hrec : findCloseAux (braceStep d l) ls = some n := by
            refine hstep.mpr ⟨by simpa using h1, by rwa [depthFrom_cons_succ] at h2, ?_⟩
            intro m hm
            have := h3 (m + 1) (by omega)
            rwa [depthFrom_cons_succ] at this
          rw [hrec, Option.map_some']

theorem findCloseAux_eq_none_iff (ls : List String) (d : Int) :
    findCloseAux d ls = none ↔ ∀ m, m < ls.length → depthFrom d ls m ≠ 0 := by
  induction ls generalizing d with
  | nil => simp [findCloseAux]
  | cons l ls ih =>
    by_cases hd : braceStep d l = 0
    · rw [findCloseAux_cons, if_pos hd]
      constructor
      · intro h
        simp at h
      · intro hall
        exact absurd hd (by simpa [depthFrom_cons_zero] using hall 0 (by simp))
    · rw [findCloseAux_cons, if_neg hd, Option.map_eq_none']
      constructor
      · intro h
        intro m hm
        cases m with
        | zero => simpa [depthFrom_cons_zero] using hd
        | succ m =>
          rw [depthFrom_cons_succ]
          exact (ih (braceStep d l)).mp h m (by simpa using hm)
      · intro hall
        rw [ih (braceStep d l)]
        intro m hm
        have := hall (m + 1) (by simpa using hm)
        rwa [depthFrom_cons_succ] at this

theorem spliceAt_drop_succ (lines : List String) (c : Nat) (x : String)
    (h : c ≤ lines.length) :
    (spliceAt lines c x).drop (c + 1) = lines.drop c := by
  have hl : (lines.take c ++ [x]).length = c + 1 := by
    simp [List.length_take, Nat.min_eq_left h]
  rw [spliceAt, ← hl, List.drop_left]

/-- Modelled from the spec: the claim's per-occurrence depth counter — on
each scanned line the depth is incremented for EVERY opening-delimiter
occurrence and decremented for EVERY closing-delimiter occurrence, so a
line with several occurrences changes the depth by that many.  Used only
to compare the claim's described procedure against the source's. -/
def braceStepClaim (d : Int) (line : String) : Int :=
  d + (line.data.countP (fun c => c = openBr) : Int) -
    (line.data.countP (fun c => c = closeBr) : Int)

/-- Modelled from the spec: the scan induced by the claim's per-occurrence
depth counter. -/
def findCloseClaimAux (d : Int) : List String → Option Nat
  | [] => none
  | l :: ls =>
    let d2 := braceStepClaim d l
    if d2 = 0 then some 0 else (findCloseClaimAux d2 ls).map (· + 1)

/-- Modelled from the spec: the claim's insertion index. -/
def locateCloseClaim (lines : List String) (i : Nat) : Option Nat :=
  (findCloseClaimAux 1 (lines.drop (i + 1))).map (fun o => i + 1 + o)

/-- C3 counterexample: on a file whose second line contains two opening
delimiters, the claim's per-occurrence counter designates line 4 as the
insertion point whereas the source's per-line presence counter (one
increment per line containing an opening delimiter) inserts before
line 3. -/
theorem c3_counterexample :
    locateCloseClaim
      ["test('t', async (\x7b page \x7d) => \x7b", "  foo(\x7b bar(\x7b",
       "  \x7d);", "  \x7d);", "\x7d);"] 0 = some 4 ∧
    locateClose
      ["test('t', async (\x7b page \x7d) => \x7b", "  foo(\x7b bar(\x7b",
       "  \x7d);", "  \x7d);", "\x7d);"] 0 = some 3 ∧
    (3 : Nat) ≠ 4 := by
  refine ⟨by decide, by decide, by decide⟩

/-- C3 (amended): the insertion point is found by a delimiter-depth counter
seeded at 1 on the case-declaration line that is incremented by one on
every scanned line containing at least one opening delimiter and
decremented by one on every line containing at least one closing delimiter
(per-line presence, not per occurrence); the insertion index is the first
line after the declaration at which this depth reaches 0, the synthesized
line is spliced immediately before that line, and if the depth never
reaches 0 before end of file the working array is left unchanged (the
injection is skipped with a warning). -/
theorem c3_insertion_point (lines : List String) (i : Nat) :
    (∀ c, locateClose lines i = some c ↔
      (i < c ∧ c < lines.length ∧ depthFrom 1 (lines.drop (i + 1)) (c - (i + 1)) = 0 ∧
        ∀ j, i < j → j < c → depthFrom 1 (lines.drop (i + 1)) (j - (i + 1)) ≠ 0)) ∧
    (∀ c code, locateClose lines i = some c →
      injectAssertion lines i code =
        (lines.take c ++ ["      " ++ code] ++ lines.drop c, true)) ∧
    (locateClose lines i = none ↔
      ∀ j, i < j → j < lines.length → depthFrom 1 (lines.drop (i + 1)) (j - (i + 1)) ≠ 0) ∧
    (∀ code, locateClose lines i = none → injectAssertion lines i code = (lines, false)) := by
  have hlen : (lines.drop (i + 1)).length = lines.length - (i + 1) := List.length_drop _ _
  refine ⟨?_, ?_, ?_, ?_⟩
  · intro c
    constructor
    · intro h
      simp only [locateClose, Option.map_eq_some'] at h
      obtain ⟨o, ho, hEq⟩ := h
      obtain ⟨h1, h2, h3⟩ := (findCloseAux_eq_some_iff _ _ _).mp ho
      refine ⟨by omega, by omega, ?_, ?_⟩
      · have : c - (i + 1) = o := by omega
        rwa [this]
      · intro j hj1 hj2
        have : j - (i + 1) < o := by omega
        have hm := h3 (j - (i + 1)) this
        exact hm
    · rintro ⟨h1, h2, h3, h4⟩
      have ho : findCloseAux 1 (lines.drop (i + 1)) = some (c - (i + 1)) := by
        refine (findCloseAux_eq_some_iff _ _ _).mpr ⟨by omega, h3, ?_⟩
        intro m hm
        have := h4 (i + 1 + m) (by omega) (by omega)
        simpa using this
      simp only [locateClose, ho, Option.map_some']
      congr 1
      omega
  · intro c code h
    have hc : c < lines.length := by
      simp only [locateClose, Option.map_eq_some'] at h
      obtain ⟨o, ho, hEq⟩ := h
      have := ((findCloseAux_eq_some_iff _ _ _).mp ho).1
      omega
    simp [injectAssertion, h, spliceAt]
  · constructor
    · intro h
      simp only [locateClose, Option.map_eq_none'] at h
      intro j hj1 hj2
      have := (findCloseAux_eq_none_iff _ _).mp h (j - (i + 1)) (by omega)
      exact this
    · intro hall
      have : findCloseAux 1 (lines.drop (i + 1)) = none := by
        rw [findCloseAux_eq_none_iff]
        intro m hm
        have := hall (i + 1 + m) (by omega) (by omega)
        simpa using this
      simp [locateClose, this]
  · intro code h
    simp [injectAssertion, h]

/-- Witness for C3: the characterization applied to the counterexample file
computes the source's insertion index 3. -/
theorem c3_insertion_point_witness :
    locateClose
      ["test('t', async (\x7b page \x7d) => \x7b", "  foo(\x7b bar(\x7b",
       "  \x7d);", "  \x7d);", "\x7d);"] 0 = some 3 :=
  ((c3_insertion_point
      ["test('t', async (\x7b page \x7d) => \x7b", "  foo(\x7b bar(\x7b",
       "  \x7d);", "  \x7d);", "\x7d);"] 0).1 3).mpr
    ⟨by decide, by decide, by decide, by
      intro j h1 h2
      interval_cases j <;> decide⟩

/-! ## Claim C4: the keyword URL fallback -/

/-- C4 counterexample: for expected text
`User is redirected to https://app.example.com/dashboard` with no attached
analysis, the keyword fallback does not synthesize a wait-for-URL call —
the lowercased text contains no substring `url`, so the synthesized line
is the plain fallback comment. -/
theorem c4_counterexample :
    inferAssertion
      ⟨"", "", "", [], "", "User is redirected to https://app.example.com/dashboard", "", none⟩ =
      "// Verify: User is redirected to https://app.example.com/dashboard" ∧
    ¬ jsIncludes
      (inferAssertion
        ⟨"", "", "", [], "", "User is redirected to https://app.example.com/dashboard", "", none⟩)
      "waitForURL" := by
  refine ⟨by decide, by decide⟩

/-- C4 (amended): for that expected text the keyword fallback synthesizes
the verbatim comment `// Verify: User is redirected to
https://app.example.com/dashboard`, because the URL-wait rule requires the
substring `url` in the lowercased expected text; when `url` is present —
e.g. `User is redirected, url: https://app.example.com/dashboard` — the
fallback synthesizes a wait-for-URL call targeting exactly
`https://app.example.com/dashboard`. -/
theorem c4_keyword_fallback :
    inferAssertion
      ⟨"", "", "", [], "", "User is redirected to https://app.example.com/dashboard", "", none⟩ =
      "// Verify: User is redirected to https://app.example.com/dashboard" ∧
    inferAssertion
      ⟨"", "", "", [], "", "User is redirected, url: https://app.example.com/dashboard", "", none⟩ =
      "await page.waitForURL('https://app.example.com/dashboard'); // Keyword inferred: URL verification" := by
  refine ⟨by decide, by decide⟩

/-! ## Claim C5: assertion injection -/

/-- C5: on a test file whose single case has non-empty expected text
`Dashboard loads` and no assertion in the lookahead window, exactly one
assertion line (`// Verify: Dashboard loads`) is synthesized and spliced
into the working array, but the emitted file contains neither the
synthesized line nor the original test body: after the splice the source
sets `i = j - 1`, so the loop resumes at the old closing line and never
pushes the body lines or the spliced assertion onto `newLines`. -/
theorem c5_injection_dropped :
    inferAssertion ⟨"TC1", "t", "t", [], "", "Dashboard loads", "", none⟩ =
      "// Verify: Dashboard loads" ∧
    processSpecContent
      [⟨"login", "Login", "login", [⟨"TC1", "t", "t", [], "", "Dashboard loads", "", none⟩]⟩]
      "tests/login.spec.js"
      "test('t', async (\x7b page \x7d) => \x7b\n  await loginPage.submit();\n\x7d);" =
      "test('t', async (\x7b page \x7d) => \x7b\n\x7d);" ∧
    ¬ jsIncludes
      (processSpecContent
        [⟨"login", "Login", "login", [⟨"TC1", "t", "t", [], "", "Dashboard loads", "", none⟩]⟩]
        "tests/login.spec.js"
        "test('t', async (\x7b page \x7d) => \x7b\n  await loginPage.submit();\n\x7d);")
      "// Verify: Dashboard loads" ∧
    ¬ jsIncludes
      (processSpecContent
        [⟨"login", "Login", "login", [⟨"TC1", "t", "t", [], "", "Dashboard loads", "", none⟩]⟩]
        "tests/login.spec.js"
        "test('t', async (\x7b page \x7d) => \x7b\n  await loginPage.submit();\n\x7d);")
      "loginPage.submit" := by
  refine ⟨by decide, by decide, by decide, by decide⟩

/-! ## Claim C2: case-level title correction -/

/-- C2 counterexample: a test case with priority `P1` and empty
description (whose `title` is the placeholder `Test for Login - Case 1`)
makes the post-processor enforce `@smoke @reg Test for Login - Case 1` —
the tag prefix concatenated with the `title`, not with the `description`.
A generated title equal to the claim's expected string
(`@smoke @reg ` = prefix ++ description) is rewritten, although the claim
says a title equal to the exact expected string (with no banned
substrings) is left alone. -/
theorem c2_counterexample :
    priorityTags "P1" ++
      (⟨"", "Test for Login - Case 1", "", [], "", "", "P1", none⟩ : TestCase).description =
      "@smoke @reg " ∧
    bannedGeneratedTitle "@smoke @reg " = false ∧
    exactTestTitleOf (⟨"", "Test for Login - Case 1", "", [], "", "", "P1", none⟩ : TestCase) =
      "@smoke @reg Test for Login - Case 1" ∧
    processTestLines
      ⟨"login", "Login", "login", [⟨"", "Test for Login - Case 1", "", [], "", "", "P1", none⟩]⟩
      ["test('@smoke @reg ', async (\x7b page \x7d) => \x7b", "\x7d);"] =
      ["test('@smoke @reg Test for Login - Case 1', async (\x7b page \x7d) => \x7b", "\x7d);"] ∧
    "test('@smoke @reg Test for Login - Case 1', async (\x7b page \x7d) => \x7b" ≠
      "test('@smoke @reg ', async (\x7b page \x7d) => \x7b" := by
  refine ⟨by decide, by decide, by decide, by decide, by decide⟩

/-- C2 (amended): a complete characterization of the per-file loop with
respect to case declarations, over every test file and every counter
value.  Conjunct 1 anchors the whole-file pass; conjuncts 2 and 3 show the
counter `k` is unchanged on a line with no matched case declaration and on
a matched declaration once the counter has reached the test count; and
conjunct 4 shows that at ANY matched case declaration reached with ANY
counter `k` below the group's test count — hence, chaining the three step
conjuncts over the traversal, at the k-th matched declaration of any file
— the emitted line replaces the captured title exactly when its trimmed
form differs from the trimmed exact expected title or it contains a banned
placeholder substring, where the exact expected title is computed from the
k-th TestCase `tests[k]` as the tag prefix derived from its priority
(`P1` gives `@smoke @reg `, `P2` gives `@sanity @reg `, `P3` gives
`@reg `, empty or unrecognized gives no prefix) concatenated with that
TestCase's `title` (which equals the description only when the description
cell was non-empty), and the loop continues with counter `k + 1`. -/
theorem c2_title_correction (g : ScenarioGroup) :
    (∀ lines, processTestLines g lines = postLoopF g lines.length lines 0) ∧
    (∀ fuel line rest k, findTestTitle (describeFix g line) = none →
      postLoopF g (fuel + 1) (line :: rest) k =
        describeFix g line :: postLoopF g fuel rest k) ∧
    (∀ fuel line rest k gt, findTestTitle (describeFix g line) = some gt →
      ¬ k < g.tests.length →
      postLoopF g (fuel + 1) (line :: rest) k =
        describeFix g line :: postLoopF g fuel rest k) ∧
    (∀ fuel line rest k gt, ∀ hk : k < g.tests.length,
      findTestTitle (describeFix g line) = some gt →
      ∃ tail,
        postLoopF g (fuel + 1) (line :: rest) k =
          (if shouldReplaceTitle gt (exactTestTitleOf g.tests[k]) then
            replaceFirst (describeFix g line) gt (exactTestTitleOf g.tests[k])
          else describeFix g line) :: tail ∧
        (tail = postLoopF g fuel rest (k + 1) ∨
          ∃ o, findCloseAux 1 rest = some o ∧
            tail = postLoopF g fuel (rest.drop o) (k + 1))) ∧
    (∀ tc : TestCase, exactTestTitleOf tc = priorityTags tc.priority ++ tc.title) ∧
    priorityTags "P1" = "@smoke @reg " ∧ priorityTags "P2" = "@sanity @reg " ∧
    priorityTags "P3" = "@reg " ∧ priorityTags "" = "" ∧ priorityTags "P4" = "" := by
  refine ⟨?_, ?_, ?_, ?_, ?_, by decide, by decide, by decide, by decide, by decide⟩
  · intro lines
    rfl
  · intro fuel line rest k h
    simp only [postLoopF, h]
  · intro fuel line rest k gt h hk
    simp only [postLoopF, h]
    rw [dif_neg hk]
  · intro fuel line rest k gt hk h
    simp only [postLoopF, h]
    rw [dif_pos hk]
    by_cases hexp : g.tests[k].expected ≠ "" ∧ jsTrim (g.tests[k].expected) ≠ ""
    · rw [if_pos hexp]
      by_cases hwin : assertLikeTest (joinNl (rest.take 9)) = true
      · rw [hwin]
        simp only [if_true]
        exact ⟨postLoopF g fuel rest (k + 1), rfl, Or.inl rfl⟩
      · have hwin' : assertLikeTest (joinNl (rest.take 9)) = false := by
          simpa using hwin
        rw [hwin']
        simp only [Bool.false_eq_true, if_false]
        by_cases hcode : inferAssertion g.tests[k] ≠ ""
        · rw [if_pos hcode]
          cases hfc : findCloseAux 1 rest with
          | none =>
            exact ⟨postLoopF g fuel rest (k + 1), rfl, Or.inl rfl⟩
          | some o =>
            exact ⟨postLoopF g fuel (rest.drop o) (k + 1), rfl, Or.inr ⟨o, rfl, rfl⟩⟩
        · rw [if_neg hcode]
          exact ⟨postLoopF g fuel rest (k + 1), rfl, Or.inl rfl⟩
    · rw [if_neg hexp]
      exact ⟨postLoopF g fuel rest (k + 1), rfl, Or.inl rfl⟩
  · intro tc
    rw [exactTestTitleOf]
    by_cases hp : tc.priority = ""
    · simp [hp, priorityTags]
    · simp [hp]

/-- Witness for C2: the k-th-declaration step at k = 1 — on a two-test
group, a matched declaration reached with counter 1 is corrected against
the SECOND test case's tag-prefixed exact title and the counter moves
to 2. -/
theorem c2_title_correction_witness :
    ∃ tail,
      postLoopF
        ⟨"login", "Login", "login",
          [⟨"", "First Case", "First Case", [], "", "", "P1", none⟩,
           ⟨"", "Second Case", "Second Case", [], "", "", "P2", none⟩]⟩ 2
        ["test('b', async (\x7b page \x7d) => \x7b", "\x7d);"] 1 =
        (if shouldReplaceTitle "b"
              (exactTestTitleOf
                (⟨"", "Second Case", "Second Case", [], "", "", "P2", none⟩ : TestCase)) then
          replaceFirst
            (describeFix
              ⟨"login", "Login", "login",
                [⟨"", "First Case", "First Case", [], "", "", "P1", none⟩,
                 ⟨"", "Second Case", "Second Case", [], "", "", "P2", none⟩]⟩
              "test('b', async (\x7b page \x7d) => \x7b") "b"
            (exactTestTitleOf
              (⟨"", "Second Case", "Second Case", [], "", "", "P2", none⟩ : TestCase))
        else
          describeFix
            ⟨"login", "Login", "login",
              [⟨"", "First Case", "First Case", [], "", "", "P1", none⟩,
               ⟨"", "Second Case", "Second Case", [], "", "", "P2", none⟩]⟩
            "test('b', async (\x7b page \x7d) => \x7b") :: tail ∧
      (tail =
          postLoopF
            ⟨"login", "Login", "login",
              [⟨"", "First Case", "First Case", [], "", "", "P1", none⟩,
               ⟨"", "Second Case", "Second Case", [], "", "", "P2", none⟩]⟩ 1 ["\x7d);"] 2 ∨
        ∃ o, findCloseAux 1 ["\x7d);"] = some o ∧
          tail =
            postLoopF
              ⟨"login", "Login", "login",
                [⟨"", "First Case", "First Case", [], "", "", "P1", none⟩,
                 ⟨"", "Second Case", "Second Case", [], "", "", "P2", none⟩]⟩ 1
              (["\x7d);"].drop o) 2) :=
  (c2_title_correction
    ⟨"login", "Login", "login",
      [⟨"", "First Case", "First Case", [], "", "", "P1", none⟩,
       ⟨"", "Second Case", "Second Case", [], "", "", "P2", none⟩]⟩).2.2.2.1
    1 "test('b', async (\x7b page \x7d) => \x7b" ["\x7d);"] 1 "b"
    (by decide) (by decide)

/-! ## Claims C6 and C8: fixture regeneration and the frame invariant -/

theorem lookupVal_mapValues (fs : List (String × String)) (f : String → String → String)
    (k : String) :
    lookupVal (fs.map (fun kv => (kv.1, f kv.1 kv.2))) k = (lookupVal fs k).map (f k) := by
  induction fs with
  | nil => simp [lookupVal]
  | cons kv t ih =>
    by_cases h : (kv.1 == k) = true
    · have hk : kv.1 = k := by simpa using h
      subst hk
      simp [lookupVal, ih]
    · have h' : (kv.1 == k) = false := by simpa using h
      simp [lookupVal, h', ih]

theorem setVal_eq_mapValues (fs : List (String × String)) (k v : String) :
    setVal fs k v = fs.map (fun kv => (kv.1, if kv.1 == k then v else kv.2)) := by
  rw [setVal]
  congr 1
  funext kv
  by_cases h : (kv.1 == k) = true <;> simp [h]

theorem lookupVal_setVal (fs : List (String × String)) (k' v' k : String) :
    lookupVal (setVal fs k' v') k = (lookupVal fs k).map (fun v0 => if k == k' then v' else v0) := by
  rw [setVal_eq_mapValues]
  exact lookupVal_mapValues fs (fun k1 v0 => if k1 == k' then v' else v0) k

theorem fixtureStep_of_some (names : List String) (fs : List (String × String)) (v : String)
    (hv : lookupVal fs fixturePath = some v) :
    fixtureStep names fs =
      if v ≠ "" then setVal fs fixturePath (buildFixture names) else fs := by
  rw [fixtureStep, hv]

theorem fixtureStep_of_none (names : List String) (fs : List (String × String))
    (hv : lookupVal fs fixturePath = none) :
    fixtureStep names fs = fs := by
  rw [fixtureStep, hv]

theorem fixtureStep_lookup (names : List String) (fs : List (String × String)) (v : String)
    (hv : lookupVal fs fixturePath = some v) (hne : v ≠ "") :
    lookupVal (fixtureStep names fs) fixturePath = some (buildFixture names) := by
  rw [fixtureStep_of_some names fs v hv, if_pos hne, lookupVal_setVal, hv]
  simp

theorem fixtureStep_lookup_ne (names : List String) (fs : List (String × String))
    (k : String) (hk : k ≠ fixturePath) :
    lookupVal (fixtureStep names fs) k = lookupVal fs k := by
  cases hv : lookupVal fs fixturePath with
  | none => rw [fixtureStep_of_none names fs hv]
  | some v =>
    rw [fixtureStep_of_some names fs v hv]
    by_cases hne : v ≠ ""
    · rw [if_pos hne, lookupVal_setVal]
      have hkb : (k == fixturePath) = false := by simpa using hk
      cases lookupVal fs k <;> simp [hkb]
    · rw [if_neg hne]

theorem fixtureStep_isSome (names : List String) (fs : List (String × String)) (k : String) :
    (lookupVal (fixtureStep names fs) k).isSome = (lookupVal fs k).isSome := by
  by_cases hk : k = fixturePath
  · subst hk
    cases hv : lookupVal fs fixturePath with
    | none => rw [fixtureStep_of_none names fs hv, hv]
    | some v =>
      rw [fixtureStep_of_some names fs v hv]
      by_cases hne : v ≠ ""
      · rw [if_pos hne, lookupVal_setVal, hv]
        simp
      · rw [if_neg hne, hv]
  · rw [fixtureStep_lookup_ne _ _ _ hk]

theorem postProcess_eq (groups : List ScenarioGroup) (names : List String)
    (fs : List (String × String)) :
    postProcess groups names fs =
      fixtureStep names
        (fs.map (fun kv =>
          (kv.1, if isTestSpecPath kv.1 then processSpecContent groups kv.1 kv.2 else kv.2))) := by
  rw [postProcess]
  congr 1
  apply List.map_congr_left
  intro kv _
  by_cases h : isTestSpecPath kv.1 <;> simp [h]

theorem lookupVal_postMap (groups : List ScenarioGroup) (fs : List (String × String))
    (k : String) :
    lookupVal
      (fs.map (fun kv =>
        (kv.1, if isTestSpecPath kv.1 then processSpecContent groups kv.1 kv.2 else kv.2))) k =
      (lookupVal fs k).map
        (fun v => if isTestSpecPath k then processSpecContent groups k v else v) :=
  lookupVal_mapValues fs
    (fun k1 v => if isTestSpecPath k1 then processSpecContent groups k1 v else v) k

set_option maxRecDepth 8000 in
/-- C6 counterexample: a GeneratedFileSet holding the fixture path with
empty content is NOT rewritten — the source's gate
`if (aiGeneratedStructure["testFixtures/baseFixture.js"])` is a JS
truthiness test and the empty string is falsy — so mere presence of an
entry at the fixture path does not suffice for the unconditional
replacement the claim states. -/
theorem c6_counterexample :
    lookupVal [(fixturePath, "")] fixturePath = some "" ∧
    postProcess [] ["Login"] [(fixturePath, "")] = [(fixturePath, "")] ∧
    buildFixture ["Login"] ≠ "" := by
  refine ⟨by decide, by decide, by decide⟩

set_option maxRecDepth 8000 in
/-- C6 (amended): whenever the GeneratedFileSet contains an entry with
NON-EMPTY content at the designated fixture path, its value is discarded
and replaced with the deterministic construction `buildFixture`; for the
identifier list `["Login", "ProductSearch"]` that construction holds
exactly two page-object import lines and exactly two factory entries, and
for the empty identifier list it is the minimal fixture with an empty
extension object.  (As a pure function of the identifier list, the
construction is byte-identical across repeated runs.) -/
theorem c6_fixture_regeneration :
    (∀ (groups : List ScenarioGroup) (names : List String) (fs : List (String × String))
      (v : String),
      lookupVal fs fixturePath = some v → v ≠ "" →
      lookupVal (postProcess groups names fs) fixturePath = some (buildFixture names)) ∧
    (jsSplit '\n' (buildFixture ["Login", "ProductSearch"])).countP
      (fun l => jsIncludes l "from '../pages/") = 2 ∧
    (jsSplit '\n' (buildFixture ["Login", "ProductSearch"])).countP
      (fun l => jsIncludes l "Page: async (\x7b page \x7d, use)") = 2 ∧
    buildFixture [] =
      "import \x7b test as baseTest \x7d from '@playwright/test';\n\nconst test = baseTest.extend(\x7b\x7d);\n\nexport default test;\n" := by
  refine ⟨?_, by decide, by decide, by decide⟩
  intro groups names fs v hv hne
  rw [postProcess_eq]
  apply fixtureStep_lookup names _ v _ hne
  rw [lookupVal_postMap, hv]
  have hfix : isTestSpecPath fixturePath = false := by decide
  simp [hfix]

/-- Witness for C6: a concrete file set with non-empty fixture content has
its fixture entry replaced by the deterministic construction. -/
theorem c6_fixture_regeneration_witness :
    lookupVal (postProcess [] ["Login"] [(fixturePath, "x")]) fixturePath =
      some (buildFixture ["Login"]) :=
  c6_fixture_regeneration.1 [] ["Login"] [(fixturePath, "x")] "x" (by decide) (by decide)

/-- C8: the Post-Processor's output mapping contains exactly the keys of
the input (no key is added or removed), and every entry whose key is not
under `tests/` and is not the designated fixture path keeps its value
unchanged. -/
theorem c8_frame_invariant (groups : List ScenarioGroup) (names : List String)
    (fs : List (String × String)) :
    (∀ k, (lookupVal (postProcess groups names fs) k).isSome =
      (lookupVal fs k).isSome) ∧
    (∀ k v, ¬ strStarts k "tests/" → k ≠ fixturePath → lookupVal fs k = some v →
      lookupVal (postProcess groups names fs) k = some v) := by
  constructor
  · intro k
    rw [postProcess_eq, fixtureStep_isSome, lookupVal_postMap]
    cases lookupVal fs k <;> simp
  · intro k v hk1 hk2 hv
    rw [postProcess_eq, fixtureStep_lookup_ne _ _ _ hk2, lookupVal_postMap, hv]
    have hts : strStarts k "tests/" = false := by simpa using hk1
    have hnt : isTestSpecPath k = false := by
      rw [isTestSpecPath, hts]
      rfl
    simp [hnt]

set_option maxRecDepth 8000 in
/-- Witness for C8: a concrete non-test, non-fixture entry is preserved
verbatim, and key presence is preserved. -/
theorem c8_frame_invariant_witness :
    (lookupVal (postProcess [] [] [("pages/LoginPage.js", "class LoginPage \x7b\x7d")])
      "pages/LoginPage.js").isSome =
      (lookupVal [("pages/LoginPage.js", "class LoginPage \x7b\x7d")] "pages/LoginPage.js").isSome ∧
    lookupVal (postProcess [] [] [("pages/LoginPage.js", "class LoginPage \x7b\x7d")])
      "pages/LoginPage.js" = some "class LoginPage \x7b\x7d" := by
  have h := c8_frame_invariant [] [] [("pages/LoginPage.js", "class LoginPage \x7b\x7d")]
  exact ⟨h.1 "pages/LoginPage.js",
    h.2 "pages/LoginPage.js" "class LoginPage \x7b\x7d" (by decide) (by decide) (by decide)⟩

/-! ## Claim C7: idempotence of the Post-Processor -/

set_option maxRecDepth 8000 in
/-- C7 counterexample: running the Post-Processor a second time on its own
output changes the output again.  The captured describe title `a` also
occurs earlier on its line, so `line.replace(generatedTitle, exact)` hits
the earlier occurrence on the first run; the title is still not exact
after the first run and the second run rewrites the line once more. -/
theorem c7_counterexample :
    postProcess [⟨"x", "b", "x", []⟩] []
      [("tests/x.spec.js", "x = 'a'; test.describe('a', () => \x7b")] =
      [("tests/x.spec.js", "x = 'b'; test.describe('a', () => \x7b")] ∧
    findDescribeTitle "x = 'b'; test.describe('a', () => \x7b" = some "a" ∧
    "a" ≠ "b" ∧
    postProcess [⟨"x", "b", "x", []⟩] []
      (postProcess [⟨"x", "b", "x", []⟩] []
        [("tests/x.spec.js", "x = 'a'; test.describe('a', () => \x7b")]) =
      [("tests/x.spec.js", "x = 'b'; test.describe('b', () => \x7b")] ∧
    [(("tests/x.spec.js" : String), ("x = 'b'; test.describe('b', () => \x7b" : String))] ≠
      [(("tests/x.spec.js" : String), ("x = 'b'; test.describe('a', () => \x7b" : String))] := by
  refine ⟨by decide, by decide, by decide, by decide, by decide⟩

/-- The injection attempt at a case-declaration line is output-neutral:
either it is not taken, or the located closing line is the very next line
(so no line is dropped by the loop-index jump). -/
def noOpInj (tc : TestCase) (rest : List String) : Bool :=
  if tc.expected ≠ "" ∧ jsTrim tc.expected ≠ "" then
    if assertLikeTest (joinNl (rest.take 9)) then true
    else if inferAssertion tc ≠ "" then
      match findCloseAux 1 rest with
      | some o => o == 0
      | none => true
    else true
  else true

/-- A line (with its following suffix) on which one iteration of the
per-file loop changes nothing: the describe fix leaves it unchanged, any
captured test title is non-replaceable against every test's exact title,
and the injection attempt is output-neutral. -/
def noOpStep (g : ScenarioGroup) (line : String) (rest : List String) : Bool :=
  describeFix g line == line &&
  (match findTestTitle line with
   | some gt =>
     g.tests.all (fun tc => !shouldReplaceTitle gt (exactTestTitleOf tc) && noOpInj tc rest)
   | none => true)

theorem drop_succ_of_drop_cons {lines : List String} {n : Nat} {line : String}
    {rest : List String} (h : lines.drop n = line :: rest) :
    lines.drop (n + 1) = rest := by
  have h1 : (lines.drop n).drop 1 = rest := by rw [h]; rfl
  rwa [List.drop_drop] at h1

theorem postLoopF_noop (g : ScenarioGroup) (lines : List String)
    (h : ∀ n line rest, lines.drop n = line :: rest → noOpStep g line rest = true) :
    ∀ fuel n k, (lines.drop n).length ≤ fuel →
      postLoopF g fuel (lines.drop n) k = lines.drop n := by
  intro fuel
  induction fuel with
  | zero =>
    intro n k hle
    have hnil : lines.drop n = [] := List.eq_nil_of_length_eq_zero (by omega)
    rw [hnil]
    rfl
  | succ fuel ih =>
    intro n k hle
    cases hdrop : lines.drop n with
    | nil => rfl
    | cons line rest =>
      have hrest : lines.drop (n + 1) = rest := drop_succ_of_drop_cons hdrop
      have hlen : rest.length ≤ fuel := by
        rw [hdrop] at hle
        simpa using hle
      have hstep := h n line rest hdrop
      rw [noOpStep, Bool.and_eq_true] at hstep
      obtain ⟨hdf', hrest'⟩ := hstep
      have hdf : describeFix g line = line := by simpa using hdf'
      have ihrest : ∀ k', postLoopF g fuel rest k' = rest := by
        intro k'
        have := ih (n + 1) k' (by rw [hrest]; exact hlen)
        rwa [hrest] at this
      cases htt : findTestTitle line with
      | none =>
        simp only [postLoopF, hdf, htt]
        rw [ihrest k]
      | some gt =>
        rw [htt] at hrest'
        rw [List.all_eq_true] at hrest'
        simp only [postLoopF, hdf, htt]
        by_cases hk : k < g.tests.length
        · rw [dif_pos hk]
          have hmem : g.tests[k] ∈ g.tests := List.getElem_mem hk
          have htc := hrest' _ hmem
          rw [Bool.and_eq_true] at htc
          obtain ⟨hnorepl, hinj⟩ := htc
          have hrepl : shouldReplaceTitle gt (exactTestTitleOf g.tests[k]) = false := by
            simpa using hnorepl
          simp only [hrepl, Bool.false_eq_true, if_false]
          rw [noOpInj] at hinj
          by_cases hexp : g.tests[k].expected ≠ "" ∧ jsTrim g.tests[k].expected ≠ ""
          · rw [if_pos hexp]
            rw [if_pos hexp] at hinj
            by_cases hwin : assertLikeTest (joinNl (rest.take 9)) = true
            · rw [hwin]
              simp only [if_true]
              rw [ihrest (k + 1)]
            · have hwin' : assertLikeTest (joinNl (rest.take 9)) = false := by
                simpa using hwin
              rw [hwin']
              rw [hwin'] at hinj
              simp only [Bool.false_eq_true, if_false]
              by_cases hcode : inferAssertion g.tests[k] ≠ ""
              · rw [if_pos hcode]
                rw [if_pos hcode] at hinj
                cases hfc : findCloseAux 1 rest with
                | none =>
                  rw [ihrest (k + 1)]
                | some o =>
                  rw [hfc] at hinj
                  have ho : o = 0 := by simpa using hinj
                  subst ho
                  simp only [List.drop_zero]
                  rw [ihrest (k + 1)]
              · rw [if_neg hcode]
                rw [ihrest (k + 1)]
          · rw [if_neg hexp]
            rw [ihrest (k + 1)]
        · rw [dif_neg hk]
          rw [ihrest k]

theorem buildFixture_ne_empty (names : List String) : buildFixture names ≠ "" := by
  rw [buildFixture]
  by_cases h : names.length > 0
  · rw [if_pos h]
    intro hcontra
    have := congrArg String.data hcontra
    simp at this
  · rw [if_neg h]
    decide

theorem setVal_setVal (fs : List (String × String)) (k v v' : String) :
    setVal (setVal fs k v) k v' = setVal fs k v' := by
  rw [setVal, setVal, setVal, List.map_map]
  apply List.map_congr_left
  intro kv _
  by_cases hk : (kv.1 == k) = true
  · have heq : kv.1 = k := by simpa using hk
    simp [heq]
  · have hne : ¬ (kv.1 = k) := by simpa using hk
    simp [hne]

theorem fixtureStep_idem (names : List String) (fs : List (String × String)) :
    fixtureStep names (fixtureStep names fs) = fixtureStep names fs := by
  cases hv : lookupVal fs fixturePath with
  | none =>
    rw [fixtureStep_of_none names fs hv, fixtureStep_of_none names fs hv]
  | some v =>
    by_cases hne : v ≠ ""
    · have h1 : fixtureStep names fs = setVal fs fixturePath (buildFixture names) := by
        rw [fixtureStep_of_some names fs v hv, if_pos hne]
      have h2 : lookupVal (setVal fs fixturePath (buildFixture names)) fixturePath =
          some (buildFixture names) := by
        rw [lookupVal_setVal, hv]
        simp
      rw [h1, fixtureStep_of_some names _ _ h2, if_pos (buildFixture_ne_empty names),
        setVal_setVal]
    · have h1 : fixtureStep names fs = fs := by
        rw [fixtureStep_of_some names fs v hv, if_neg hne]
      rw [h1, h1]

/-- C7 (amended): re-running the Post-Processor changes nothing on any
already-conformant test file — one on whose every line the describe fix is
the identity, every captured test title is non-replaceable against every
test's tag-prefixed exact title, and every injection attempt is
output-neutral (in particular when every case with a non-empty expected
field already has an assertion-like line in its lookahead window) — and
the fixture step is idempotent unconditionally.  Title correction alone is
NOT a no-op in general: when the captured title's text also occurs earlier
on its line, the first-occurrence replacement misses the capture
(counterexample), which is what the claim's unconditional statement runs
into. -/
theorem c7_conformant_fixed_point (g : ScenarioGroup) (names : List String)
    (fs : List (String × String)) (lines : List String)
    (h : ∀ n line rest, lines.drop n = line :: rest → noOpStep g line rest = true) :
    fixtureStep names (fixtureStep names fs) = fixtureStep names fs ∧
    processTestLines g lines = lines := by
  refine ⟨fixtureStep_idem names fs, ?_⟩
  have := postLoopF_noop g lines h lines.length 0 0 (by simp)
  simpa [processTestLines] using this

set_option maxRecDepth 8000 in
/-- Witness for C7: a concrete conformant file (exact tagged title, an
`expect(` already in the window) is left unchanged by a re-run, and the
fixture step is idempotent on a concrete file set. -/
theorem c7_conformant_fixed_point_witness :
    fixtureStep ["Login"] (fixtureStep ["Login"] [(fixturePath, "old")]) =
      fixtureStep ["Login"] [(fixturePath, "old")] ∧
    processTestLines ⟨"login", "Login", "login",
        [⟨"TC1", "ok", "ok", [], "", "Done", "", none⟩]⟩
      ["test('ok', async (\x7b page \x7d) => \x7b", "  await expect(page).toBeTruthy();", "\x7d);"] =
      ["test('ok', async (\x7b page \x7d) => \x7b", "  await expect(page).toBeTruthy();", "\x7d);"] := by
  have h := c7_conformant_fixed_point
    ⟨"login", "Login", "login", [⟨"TC1", "ok", "ok", [], "", "Done", "", none⟩]⟩
    ["Login"] [(fixturePath, "old")]
    ["test('ok', async (\x7b page \x7d) => \x7b", "  await expect(page).toBeTruthy();", "\x7d);"]
    (by
      intro n line rest hdrop
      match n, hdrop with
      | 0, hdrop =>
        cases hdrop
        decide
      | 1, hdrop =>
        cases hdrop
        decide
      | 2, hdrop =>
        cases hdrop
        decide
      | n + 3, hdrop =>
        simp at hdrop)
  exact h
